import Mathlib

/-!
Shallow embedding of the broadcast chat server of this repository
(src/examples/chat.rs and src/examples/mychat.rs), and proofs about it.

The `Chat` namespace embeds src/examples/chat.rs; the `MyChat` namespace
embeds the parts of src/examples/mychat.rs whose behaviour differs
(its `Message` type and `Display` rendering).  Socket addresses are an
abstract identifier type with decidable equality, modelled as `Nat`.
A tokio `mpsc` channel is modelled by its observable state from the
producer side: either live (holding the FIFO queue of not yet consumed
messages) or closed (the consumer half was dropped, so `send` fails).
The `DashMap` registry is modelled as an association list of
(address, sender) pairs; `DashMap::insert` overwrites and
`DashMap::remove` deletes by key.
-/

namespace Chat

/-- Connection identifier (`SocketAddr` in the source). -/
abbrev SocketAddr := Nat

/-- `enum Message` of chat.rs: `UserJoined(String)`, `UserLeft(String)`,
`Chat { sender, content }`.  For `UserJoined`/`UserLeft` the payload is the
full pre-formatted content string, as in the source constructors. -/
inductive Message where
  | UserJoined (content : String)
  | UserLeft (content : String)
  | Chat (sender : String) (content : String)
deriving DecidableEq, Repr

/-- `Message::user_joined`: `format!("{} has joined the chat", username)`
wrapped in the `UserJoined` variant. -/
def Message.user_joined (username : String) : Message :=
  .UserJoined (username ++ " has joined the chat")

/-- `Message::user_left`: `format!("{} has left the chat", username)`
wrapped in the `UserLeft` variant. -/
def Message.user_left (username : String) : Message :=
  .UserLeft (username ++ " has left the chat")

/-- `Message::chat(sender, content)`. -/
def Message.chat (sender content : String) : Message :=
  .Chat sender content

/-- `impl fmt::Display for Message` of chat.rs:
`UserJoined(content)` prints as `[{content}]`, `UserLeft(content)` prints as
`[{content} :(]`, `Chat { sender, content }` prints as `{sender}: {content}`. -/
def Message.render : Message → String
  | .UserJoined content => "[" ++ (content ++ "]")
  | .UserLeft content => "[" ++ (content ++ " :(]")
  | .Chat sender content => sender ++ (": " ++ content)

/-- The producer side of a peer's `mpsc::Sender<Arc<Message>>`:
`live q` is a channel whose consumer is alive and whose queue of pending
messages is `q` (FIFO, new messages appended at the back); `closed` is a
channel whose consumer half has been dropped, so `send` returns `Err`. -/
inductive Sender where
  | live (queue : List Message)
  | closed
deriving DecidableEq, Repr

/-- `struct State { peers: DashMap<SocketAddr, mpsc::Sender<Arc<Message>>> }`,
modelled as an association list from address to channel producer. -/
structure State where
  peers : List (SocketAddr × Sender)
deriving DecidableEq, Repr

/-- `self.peers.remove(&addr)`: delete the entry with the given key
(idempotent, absent keys are untouched). -/
def State.removePeer (st : State) (addr : SocketAddr) : State :=
  ⟨st.peers.filter (fun p => p.1 ≠ addr)⟩

/-- Key lookup in the registry (first entry with a matching key). -/
def State.lookupSender (st : State) (addr : SocketAddr) : Option Sender :=
  (st.peers.find? (fun p => p.1 = addr)).map Prod.snd

/-- Iteration body of `State::broadcast` over the registry entries:
entries whose key equals the excluded `addr` are skipped (`continue`);
for every other entry a `send` is attempted, which on a live channel
enqueues the message at the back of its queue, and on a closed channel
fails, upon which the entry is removed (`self.peers.remove(peer.key())`). -/
def broadcastList (addr : SocketAddr) (message : Message) :
    List (SocketAddr × Sender) → List (SocketAddr × Sender)
  | [] => []
  | (k, s) :: rest =>
    if k = addr then (k, s) :: broadcastList addr message rest
    else
      match s with
      | .live q => (k, .live (q ++ [message])) :: broadcastList addr message rest
      | .closed => broadcastList addr message rest

/-- `State::broadcast(addr, message)` of chat.rs lines 90-101. -/
def State.broadcast (st : State) (addr : SocketAddr) (message : Message) : State :=
  ⟨broadcastList addr message st.peers⟩

/-- The registry effect of `State::add` (chat.rs lines 103-129): create a
fresh channel (`mpsc::channel(MAX_MESSAGES)`, empty queue, consumer alive)
and `self.peers.insert(addr, tx)` (an insert overwrites any entry with the
same key). -/
def State.add (st : State) (addr : SocketAddr) : State :=
  ⟨(addr, Sender.live []) :: st.peers.filter (fun p => p.1 ≠ addr)⟩

/-- Errors of the line codec (`LinesCodecError` of tokio_util, which the
spec calls `CodecError`): `tooLong` is `MaxLineLengthExceeded`, `ioError`
covers the I/O failures. -/
inductive CodecError where
  | tooLong
  | ioError
deriving DecidableEq, Repr

/-- `LinesCodec` line decoding: producing one line of length greater than
the codec's configured `max_length` fails with `MaxLineLengthExceeded`;
otherwise the line (delimiter already stripped) is returned.  The chat
examples construct the codec with `LinesCodec::new()`, whose configured
maximum is `usize::MAX` (`linesCodecNewMaxLength`). -/
def decodeLine (maxLength : Nat) (line : String) : Except CodecError String :=
  if line.length > maxLength then .error .tooLong else .ok line

/-- The `max_length` installed by `LinesCodec::new()`: `usize::MAX`. -/
def linesCodecNewMaxLength : Nat := 2 ^ 64 - 1

/-- Outcome of the handshake read
`match stream.next().await { Some(Ok(u)) => u, Some(Err(e)) => return Err, None => return Ok(()) }`
(chat.rs lines 59-63): any successfully read line — the empty line
included — becomes the username; a read error or end of stream aborts. -/
inductive HandshakeResult where
  | proceed (username : String)
  | abort
deriving DecidableEq, Repr

/-- The handshake read of chat.rs lines 59-63. -/
def handshake : Option (Except CodecError String) → HandshakeResult
  | some (.ok username) => .proceed username
  | some (.error _) => .abort
  | none => .abort

/-- Registry effect of the session prefix of `handle_client`
(chat.rs lines 54-69): on a successful handshake, `state.add` registers the
peer and then the `UserJoined` message is broadcast excluding the new peer;
on an aborted handshake the function returns with the registry untouched
and nothing broadcast. -/
def sessionStart (st : State) (addr : SocketAddr)
    (firstLine : Option (Except CodecError String)) : State :=
  match handshake firstLine with
  | .proceed username => (st.add addr).broadcast addr (Message.user_joined username)
  | .abort => st

/-- The closing sequence of `handle_client` (chat.rs lines 83-86), which is
also `AppState::on_user_leave` of mychat.rs: first
`state.peers.remove(&addr)`, then broadcast of the `UserLeft` message
excluding the departed address. -/
def onUserLeave (st : State) (addr : SocketAddr) (name : String) : State :=
  (st.removePeer addr).broadcast addr (Message.user_left name)

/-- The chat phase of the read loop of `handle_client` (chat.rs lines
72-82) without its closing sequence: each successfully read line is
broadcast as a `Chat` message excluding the sender; a read error breaks
out of the loop; the list ending models the stream returning `None`. -/
def chatPhase (st : State) (addr : SocketAddr) (name : String) :
    List (Except CodecError String) → State
  | [] => st
  | (.ok line) :: rest =>
    chatPhase (st.broadcast addr (Message.chat name line)) addr name rest
  | (.error _) :: _ => st

/-- The read loop of `handle_client` together with its closing sequence
(chat.rs lines 72-87): on every exit cause — stream end or read error —
control falls through to the remove-then-broadcast-`UserLeft` sequence. -/
def clientLoop (st : State) (addr : SocketAddr) (name : String) :
    List (Except CodecError String) → State
  | [] => onUserLeave st addr name
  | (.ok line) :: rest =>
    clientLoop (st.broadcast addr (Message.chat name line)) addr name rest
  | (.error _) :: _ => onUserLeave st addr name

/-- The writer task spawned in `State::add` (chat.rs lines 114-123): it
dequeues messages in queue order, renders each with `to_string` and writes
the line; `ok i` tells whether the i-th write to the connection succeeds —
on the first failed write the task breaks out and writes nothing more.
Returns the list of lines actually written, in order. -/
def writerRun (ok : Nat → Bool) : Nat → List Message → List String
  | _, [] => []
  | i, m :: rest => if ok i then m.render :: writerRun ok (i + 1) rest else []

/-- One accepted-or-failed accept result: `Conn` stands for the accepted
`(TcpStream, SocketAddr)` pair, `AcceptError` for the `std::io::Error`. -/
abbrev Conn := Nat

/-- Abstract accept error payload. -/
abbrev AcceptError := Nat

/-- The accept loop of `main` (chat.rs lines 42-52), run over a sequence of
accept results: `let (client, addr) = listener.accept().await?` spawns a
session on `Ok` and continues looping, while on `Err` the `?` operator
propagates the error out of `main`, terminating the process.  The result is
`none` while the loop is still running (all accepts so far succeeded) and
`some e` when the process exited with accept error `e`. -/
def acceptLoop : List (Except AcceptError Conn) → Option AcceptError
  | [] => none
  | (.ok _) :: rest => acceptLoop rest
  | (.error e) :: _ => some e

/-- Abstract error returned by `handle_client`. -/
abbrev HandlerError := Nat

/-- The body of the task spawned per connection (chat.rs lines 46-51):
`if let Err(e) = handle_client(...) { warn!(...) } ; Ok(())` — whatever
`handle_client` returns, the spawned task logs and completes normally, so
a session failure never propagates anywhere. -/
def spawnedBody (r : Except HandlerError Unit) : Except HandlerError Unit :=
  match r with
  | .ok _ => .ok ()
  | .error _ => .ok ()

end Chat

namespace MyChat

/-- `enum Message` of mychat.rs: `Chat(String, String)`,
`UserJoined(String)`, `UserLeft(String)` — here the joined/left payload is
the bare username (`username.to_string()`), not a pre-formatted line. -/
inductive Message where
  | Chat (username : String) (content : String)
  | UserJoined (username : String)
  | UserLeft (username : String)
deriving DecidableEq, Repr

/-- `Message::chat` of mychat.rs. -/
def Message.chat (username content : String) : Message :=
  .Chat username content

/-- `Message::user_joined` of mychat.rs. -/
def Message.user_joined (username : String) : Message :=
  .UserJoined username

/-- `Message::user_left` of mychat.rs. -/
def Message.user_left (username : String) : Message :=
  .UserLeft username

/-- `impl fmt::Display for Message` of mychat.rs:
`Chat(u, c)` prints as `{u}: {c}`, `UserJoined(u)` as
`[>>{u}] joined the chat`, `UserLeft(u)` as `[<<{u}] left the chat`. -/
def Message.render : Message → String
  | .Chat username content => username ++ (": " ++ content)
  | .UserJoined username => "[>>" ++ (username ++ "] joined the chat")
  | .UserLeft username => "[<<" ++ (username ++ "] left the chat")

end MyChat

/-! ## Helper lemmas -/

namespace Chat

theorem broadcastList_cons_excluded (addr : SocketAddr) (m : Message) (s : Sender)
    (rest : List (SocketAddr × Sender)) :
    broadcastList addr m ((addr, s) :: rest) = (addr, s) :: broadcastList addr m rest := by
  simp [broadcastList]

theorem broadcastList_cons_live {a addr : SocketAddr} (ha : a ≠ addr) (m : Message)
    (q : List Message) (rest : List (SocketAddr × Sender)) :
    broadcastList addr m ((a, Sender.live q) :: rest)
      = (a, Sender.live (q ++ [m])) :: broadcastList addr m rest := by
  simp [broadcastList, ha]

theorem broadcastList_cons_closed {a addr : SocketAddr} (ha : a ≠ addr) (m : Message)
    (rest : List (SocketAddr × Sender)) :
    broadcastList addr m ((a, Sender.closed) :: rest) = broadcastList addr m rest := by
  simp [broadcastList, ha]

theorem broadcastList_mem_live {l : List (SocketAddr × Sender)} {k addr : SocketAddr}
    {q : List Message} (m : Message) (hk : k ≠ addr) (hmem : (k, Sender.live q) ∈ l) :
    (k, Sender.live (q ++ [m])) ∈ broadcastList addr m l := by
  induction l with
  | nil => simp at hmem
  | cons p rest ih =>
    obtain ⟨a, s⟩ := p
    rcases List.mem_cons.mp hmem with heq | htail
    · injection heq with h1 h2
      subst h1
      subst h2
      simp [broadcastList, hk]
    · by_cases ha : a = addr
      · simp [broadcastList, ha, ih htail]
      · cases s with
        | live q2 => simp [broadcastList, ha, ih htail]
        | closed => simp [broadcastList, ha, ih htail]

theorem broadcastList_mem_excluded {l : List (SocketAddr × Sender)} {addr : SocketAddr}
    {s : Sender} (m : Message) (hmem : (addr, s) ∈ l) :
    (addr, s) ∈ broadcastList addr m l := by
  induction l with
  | nil => simp at hmem
  | cons p rest ih =>
    obtain ⟨a, t⟩ := p
    rcases List.mem_cons.mp hmem with heq | htail
    · injection heq with h1 h2
      subst h1
      subst h2
      simp [broadcastList]
    · by_cases ha : a = addr
      · simp [broadcastList, ha, ih htail]
      · cases t with
        | live q2 => simp [broadcastList, ha, ih htail]
        | closed => simp [broadcastList, ha, ih htail]

theorem broadcastList_closed_mem {l : List (SocketAddr × Sender)} {addr k : SocketAddr}
    {m : Message} (h : (k, Sender.closed) ∈ broadcastList addr m l) : k = addr := by
  induction l with
  | nil => exact absurd h (List.not_mem_nil _)
  | cons p rest ih =>
    obtain ⟨a, s⟩ := p
    by_cases ha : a = addr
    · subst ha
      rw [broadcastList_cons_excluded] at h
      rcases List.mem_cons.mp h with heq | htail
      · exact congrArg Prod.fst heq
      · exact ih htail
    · cases s with
      | live q =>
        rw [broadcastList_cons_live ha] at h
        rcases List.mem_cons.mp h with heq | htail
        · injection heq with h1 h2
          exact Sender.noConfusion h2
        · exact ih htail
      | closed =>
        rw [broadcastList_cons_closed ha] at h
        exact ih h

theorem broadcastList_keys_subset {l : List (SocketAddr × Sender)} {addr k : SocketAddr}
    {m : Message} (h : k ∈ (broadcastList addr m l).map Prod.fst) :
    k ∈ l.map Prod.fst := by
  induction l with
  | nil => exact absurd h (by simp [broadcastList])
  | cons p rest ih =>
    obtain ⟨a, s⟩ := p
    by_cases ha : a = addr
    · subst ha
      rw [broadcastList_cons_excluded, List.map_cons, List.mem_cons] at h
      rw [List.map_cons, List.mem_cons]
      rcases h with h | h
      · exact Or.inl h
      · exact Or.inr (ih h)
    · cases s with
      | live q =>
        rw [broadcastList_cons_live ha, List.map_cons, List.mem_cons] at h
        rw [List.map_cons, List.mem_cons]
        rcases h with h | h
        · exact Or.inl h
        · exact Or.inr (ih h)
      | closed =>
        rw [broadcastList_cons_closed ha] at h
        rw [List.map_cons, List.mem_cons]
        exact Or.inr (ih h)

theorem broadcastList_map_fst {l : List (SocketAddr × Sender)} (addr : SocketAddr)
    (m : Message) (h : ∀ p ∈ l, p.2 ≠ Sender.closed) :
    (broadcastList addr m l).map Prod.fst = l.map Prod.fst := by
  induction l with
  | nil => rfl
  | cons p rest ih =>
    obtain ⟨a, s⟩ := p
    have hrest : ∀ p ∈ rest, p.2 ≠ Sender.closed :=
      fun p hp => h p (List.mem_cons_of_mem _ hp)
    by_cases ha : a = addr
    · subst ha
      simp [broadcastList, ih hrest]
    · cases s with
      | live q => simp [broadcastList, ha, ih hrest]
      | closed => exact absurd rfl (h (a, .closed) (List.mem_cons_self _ _))

theorem keys_unique {l : List (SocketAddr × Sender)} (h : (l.map Prod.fst).Nodup)
    {k : SocketAddr} {a b : Sender} (ha : (k, a) ∈ l) (hb : (k, b) ∈ l) : a = b := by
  induction l with
  | nil => simp at ha
  | cons p rest ih =>
    simp only [List.map_cons, List.nodup_cons] at h
    obtain ⟨hnp, hrest⟩ := h
    rcases List.mem_cons.mp ha with h1 | h1 <;> rcases List.mem_cons.mp hb with h2 | h2
    · exact congrArg Prod.snd (h1.trans h2.symm)
    · have hmem : k ∈ List.map Prod.fst rest := List.mem_map_of_mem Prod.fst h2
      have hp1 : p.1 = k := by rw [← h1]
      exact absurd (hp1.symm ▸ hmem) hnp
    · have hmem : k ∈ List.map Prod.fst rest := List.mem_map_of_mem Prod.fst h1
      have hp1 : p.1 = k := by rw [← h2]
      exact absurd (hp1.symm ▸ hmem) hnp
    · exact ih hrest h1 h2

theorem length_filter_ne_of_mem {l : List (SocketAddr × Sender)} {s : SocketAddr}
    (hnodup : (l.map Prod.fst).Nodup) (hmem : s ∈ l.map Prod.fst) :
    (l.filter (fun p => p.1 ≠ s)).length = l.length - 1 := by
  induction l with
  | nil => simp at hmem
  | cons p rest ih =>
    obtain ⟨a, t⟩ := p
    simp only [List.map_cons, List.nodup_cons] at hnodup
    obtain ⟨hna, hrest⟩ := hnodup
    by_cases ha : a = s
    · subst ha
      have hall : rest.filter (fun p => p.1 ≠ a) = rest :=
        List.filter_eq_self.mpr (by
          intro p hp
          simp only [decide_eq_true_eq]
          intro hcontra
          exact hna (hcontra ▸ List.mem_map_of_mem Prod.fst hp))
      rw [List.filter_cons, if_neg (by simp), hall]
      simp
    · have hmem2 : s ∈ rest.map Prod.fst := by
        rcases List.mem_cons.mp hmem with h | h
        · exact absurd h.symm ha
        · exact h
      have hlen : 1 ≤ rest.length := by
        cases rest with
        | nil => simp at hmem2
        | cons q rs => simp
      have := ih hrest hmem2
      simp only [List.filter_cons, decide_eq_true_eq]
      rw [if_pos (by simp [ha])]
      simp only [List.length_cons, this]
      omega

theorem not_mem_keys_filter (l : List (SocketAddr × Sender)) (addr : SocketAddr) :
    addr ∉ (l.filter (fun p => p.1 ≠ addr)).map Prod.fst := by
  intro h
  obtain ⟨p, hp, hfst⟩ := List.mem_map.mp h
  have hmf := List.mem_filter.mp hp
  simp only [decide_eq_true_eq] at hmf
  exact hmf.2 hfst

theorem find?_filter_ne (l : List (SocketAddr × Sender)) (addr k : SocketAddr)
    (hk : k ≠ addr) :
    (l.filter (fun p => p.1 ≠ addr)).find? (fun p => p.1 = k)
      = l.find? (fun p => p.1 = k) := by
  induction l with
  | nil => rfl
  | cons p rest ih =>
    rw [List.filter_cons]
    by_cases hpk : p.1 = k
    · have h1 : (decide (p.1 ≠ addr)) = true := by simp [hpk, hk]
      rw [if_pos h1, List.find?_cons_of_pos _ (by simp [hpk]),
        List.find?_cons_of_pos _ (by simp [hpk])]
    · by_cases hpa : p.1 = addr
      · rw [if_neg (by simp [hpa]), List.find?_cons_of_neg _ (by simp [hpk]), ih]
      · rw [if_pos (by simp [hpa]), List.find?_cons_of_neg _ (by simp [hpk]),
          List.find?_cons_of_neg _ (by simp [hpk]), ih]

theorem clientLoop_eq_leave_after_chatPhase (addr : SocketAddr) (name : String) :
    ∀ (lines : List (Except CodecError String)) (st : State),
      clientLoop st addr name lines = onUserLeave (chatPhase st addr name lines) addr name := by
  intro lines
  induction lines with
  | nil => intro st; rfl
  | cons x rest ih =>
    intro st
    cases x with
    | ok line => exact ih (st.broadcast addr (Message.chat name line))
    | error e => rfl

theorem writerRun_get (ok : Nat → Bool) :
    ∀ (q : List Message) (n i : Nat), i < (writerRun ok n q).length →
      (writerRun ok n q)[i]? = (q[i]?).map Message.render := by
  intro q
  induction q with
  | nil =>
    intro n i h
    simp [writerRun] at h
  | cons m rest ih =>
    intro n i h
    by_cases hok : ok n
    · cases i with
      | zero => simp [writerRun, hok]
      | succ j =>
        simp only [writerRun, hok, if_true, List.length_cons, Nat.succ_lt_succ_iff] at h
        simp only [writerRun, hok, if_true, List.getElem?_cons_succ]
        exact ih (n + 1) j h
    · simp [writerRun, hok] at h

theorem render_joined_eq (name : String) :
    Message.render (Message.user_joined name) = "[" ++ name ++ " has joined the chat]" := by
  have h1 : (" has joined the chat" : String) ++ "]" = " has joined the chat]" := by decide
  simp only [Message.render, Message.user_joined]
  rw [String.append_assoc name " has joined the chat" "]", h1,
    ← String.append_assoc "[" name " has joined the chat]"]

theorem render_left_eq (name : String) :
    Message.render (Message.user_left name) = "[" ++ name ++ " has left the chat :(]" := by
  have h1 : (" has left the chat" : String) ++ " :(]" = " has left the chat :(]" := by decide
  simp only [Message.render, Message.user_left]
  rw [String.append_assoc name " has left the chat" " :(]", h1,
    ← String.append_assoc "[" name " has left the chat :(]"]

theorem broadcastList_mem_src {l : List (SocketAddr × Sender)} {addr : SocketAddr}
    {m : Message} {p : SocketAddr × Sender} (h : p ∈ broadcastList addr m l) :
    p ∈ l ∨ ∃ q, p.2 = Sender.live (q ++ [m]) ∧ (p.1, Sender.live q) ∈ l := by
  induction l with
  | nil => exact absurd h (List.not_mem_nil _)
  | cons e rest ih =>
    obtain ⟨a, s⟩ := e
    by_cases ha : a = addr
    · subst ha
      rw [broadcastList_cons_excluded] at h
      rcases List.mem_cons.mp h with heq | htail
      · exact Or.inl (heq ▸ List.mem_cons_self _ _)
      · rcases ih htail with hl | ⟨q, h1, h2⟩
        · exact Or.inl (List.mem_cons_of_mem _ hl)
        · exact Or.inr ⟨q, h1, List.mem_cons_of_mem _ h2⟩
    · cases s with
      | live q =>
        rw [broadcastList_cons_live ha] at h
        rcases List.mem_cons.mp h with heq | htail
        · refine Or.inr ⟨q, ?_, ?_⟩
          · rw [heq]
          · rw [show p.1 = a from by rw [heq]]
            exact List.mem_cons_self _ _
        · rcases ih htail with hl | ⟨q2, h1, h2⟩
          · exact Or.inl (List.mem_cons_of_mem _ hl)
          · exact Or.inr ⟨q2, h1, List.mem_cons_of_mem _ h2⟩
      | closed =>
        rw [broadcastList_cons_closed ha] at h
        rcases ih h with hl | ⟨q2, h1, h2⟩
        · exact Or.inl (List.mem_cons_of_mem _ hl)
        · exact Or.inr ⟨q2, h1, List.mem_cons_of_mem _ h2⟩

end Chat

/-! ## Claims -/

open Chat in
/-- C1: for a registry of N live peers whose identifiers are distinct and
that contains the sender, broadcasting a chat line skips exactly the entry
equal to the sender's identifier (the sender's entry is left unchanged),
appends the message to the queue of each of the other N−1 entries, and the
message renders as `"<sender>: <content>"` with the content verbatim. -/
theorem chat_broadcast_delivers_to_all_but_sender
    (st : State) (saddr : SocketAddr) (name L : String)
    (hnodup : (st.peers.map Prod.fst).Nodup)
    (hlive : ∀ p ∈ st.peers, p.2 ≠ Sender.closed)
    (hmem : saddr ∈ st.peers.map Prod.fst) :
    (∀ k q, (k, Sender.live q) ∈ st.peers → k ≠ saddr →
      (k, Sender.live (q ++ [Message.chat name L]))
        ∈ (st.broadcast saddr (Message.chat name L)).peers) ∧
    (∀ s, (saddr, s) ∈ st.peers →
      (saddr, s) ∈ (st.broadcast saddr (Message.chat name L)).peers) ∧
    ((st.broadcast saddr (Message.chat name L)).peers.filter
        (fun p => p.1 ≠ saddr)).length = st.peers.length - 1 ∧
    Message.render (Message.chat name L) = name ++ ": " ++ L := by
  refine ⟨?_, ?_, ?_, (String.append_assoc name ": " L).symm⟩
  · intro k q hkq hks
    exact broadcastList_mem_live _ hks hkq
  · intro s hs
    exact broadcastList_mem_excluded _ hs
  · have hkeys : ((st.broadcast saddr (Message.chat name L)).peers).map Prod.fst
        = st.peers.map Prod.fst := broadcastList_map_fst saddr _ hlive
    have hcp : ∀ (l : List (SocketAddr × Sender)),
        l.countP (fun p => decide (p.1 ≠ saddr))
          = (l.map Prod.fst).countP (fun x => decide (x ≠ saddr)) := by
      intro l
      rw [List.countP_map]
      rfl
    rw [← List.countP_eq_length_filter, hcp, hkeys, ← hcp,
      List.countP_eq_length_filter]
    exact length_filter_ne_of_mem hnodup hmem

open Chat in
/-- Witness for C1 at a concrete two-peer registry: peer 1 is the sender,
peer 2 receives the chat message. -/
theorem chat_broadcast_delivers_to_all_but_sender_witness :
    ((((⟨[(1, Sender.live []), (2, Sender.live [])]⟩ : State)).peers.map Prod.fst).Nodup) ∧
    (2, Sender.live [Message.chat "bob" "hi"])
      ∈ ((⟨[(1, Sender.live []), (2, Sender.live [])]⟩ : State).broadcast 1
          (Message.chat "bob" "hi")).peers :=
  ⟨by decide,
    (chat_broadcast_delivers_to_all_but_sender
      ⟨[(1, Sender.live []), (2, Sender.live [])]⟩ 1 "bob" "hi"
      (by decide) (by decide) (by decide)).1 2 [] (by decide) (by decide)⟩

/-- C2 counterexample: the `Joined` and `Left` events do not render in the
spec's canonical forms.  chat.rs renders `user_joined "alice"` as
`"[alice has joined the chat]"`, not `"alice has joined the chat"`, and
`user_left "alice"` as `"[alice has left the chat :(]"`; mychat.rs renders
`user_joined "alice"` as `"[>>alice] joined the chat"`. -/
theorem render_spec_form_counterexample :
    Chat.Message.render (Chat.Message.user_joined "alice")
      = "[alice has joined the chat]" ∧
    Chat.Message.render (Chat.Message.user_joined "alice")
      ≠ "alice has joined the chat" ∧
    Chat.Message.render (Chat.Message.user_left "alice")
      = "[alice has left the chat :(]" ∧
    Chat.Message.render (Chat.Message.user_left "alice")
      ≠ "alice has left the chat" ∧
    MyChat.Message.render (MyChat.Message.user_joined "alice")
      = "[>>alice] joined the chat" ∧
    MyChat.Message.render (MyChat.Message.user_joined "alice")
      ≠ "alice has joined the chat" :=
  ⟨by decide, by decide, by decide, by decide, by decide, by decide⟩

/-- C2 amended: every event has a single canonical rendering, but the
actual forms are: in chat.rs a Joined event renders as
`"[<name> has joined the chat]"`, a Left event as
`"[<name> has left the chat :(]"`, and a Chat event as `"<name>: <content>"`;
in mychat.rs a Joined event renders as `"[>><name>] joined the chat"`, a
Left event as `"[<<<name>] left the chat"`, and a Chat event as
`"<name>: <content>"` (no other characters added or removed). -/
theorem render_canonical_forms (name content : String) :
    Chat.Message.render (Chat.Message.user_joined name)
      = "[" ++ name ++ " has joined the chat]" ∧
    Chat.Message.render (Chat.Message.user_left name)
      = "[" ++ name ++ " has left the chat :(]" ∧
    Chat.Message.render (Chat.Message.chat name content) = name ++ ": " ++ content ∧
    MyChat.Message.render (MyChat.Message.user_joined name)
      = "[>>" ++ name ++ "] joined the chat" ∧
    MyChat.Message.render (MyChat.Message.user_left name)
      = "[<<" ++ name ++ "] left the chat" ∧
    MyChat.Message.render (MyChat.Message.chat name content) = name ++ ": " ++ content := by
  refine ⟨Chat.render_joined_eq name, Chat.render_left_eq name,
    (String.append_assoc name ": " content).symm, ?_, ?_,
    (String.append_assoc name ": " content).symm⟩
  · show "[>>" ++ (name ++ "] joined the chat") = "[>>" ++ name ++ "] joined the chat"
    rw [← String.append_assoc]
  · show "[<<" ++ (name ++ "] left the chat") = "[<<" ++ name ++ "] left the chat"
    rw [← String.append_assoc]

/-- C3 counterexample: a failed accept terminates the accept loop instead
of being logged and skipped — with accept results `[Err 7, Ok 0]` the loop
exits with error 7, while continuing (as the claim states) would have left
the loop running (`none`, as it does on `[Ok 0]` alone). -/
theorem accept_error_terminates_counterexample :
    Chat.acceptLoop [Except.error 7, Except.ok 0] = some 7 ∧
    Chat.acceptLoop [Except.ok 0] = none ∧
    (some 7 : Option Chat.AcceptError) ≠ none :=
  ⟨rfl, rfl, by decide⟩

/-- C3 amended: an accept error propagates out of `main` via `?` and
terminates the server (the loop result is that error, whatever follows);
a successful accept keeps the loop running; and errors returned by
`handle_client` inside the spawned task are logged there and never
propagate (the spawned task always completes normally). -/
theorem accept_error_propagates (e : Chat.AcceptError) (c : Chat.Conn)
    (rest : List (Except Chat.AcceptError Chat.Conn))
    (r : Except Chat.HandlerError Unit) :
    Chat.acceptLoop (Except.error e :: rest) = some e ∧
    Chat.acceptLoop (Except.ok c :: rest) = Chat.acceptLoop rest ∧
    Chat.spawnedBody r = Except.ok () := by
  refine ⟨rfl, rfl, ?_⟩
  cases r with
  | ok u => rfl
  | error e2 => rfl

open Chat in
/-- C4 counterexample: an empty first line does not abort the session —
`Some(Ok(""))` is accepted as the username, the peer is registered, and a
`Joined` event is broadcast to the already-registered peers. -/
theorem empty_username_registers_counterexample :
    (sessionStart ⟨[]⟩ 0 (some (Except.ok ""))).peers = [(0, Sender.live [])] ∧
    (sessionStart ⟨[(5, Sender.live [])]⟩ 0 (some (Except.ok ""))).peers
      = [(0, Sender.live []), (5, Sender.live [Message.user_joined ""])] :=
  ⟨rfl, rfl⟩

open Chat in
/-- C4 amended: the session aborts — registry untouched, nothing broadcast —
exactly when the handshake read fails or the stream is at EOF; any
successfully read first line, the empty line included, is accepted as the
display name, after which the peer is registered and the `Joined` event is
broadcast to every other live peer. -/
theorem handshake_abort_only_on_error_or_eof (st : State) (addr : SocketAddr) :
    sessionStart st addr none = st ∧
    (∀ e, sessionStart st addr (some (Except.error e)) = st) ∧
    (∀ u, (sessionStart st addr (some (Except.ok u))).lookupSender addr
        = some (Sender.live [])) ∧
    (∀ u k q, (k, Sender.live q) ∈ st.peers → k ≠ addr →
      (k, Sender.live (q ++ [Message.user_joined u]))
        ∈ (sessionStart st addr (some (Except.ok u))).peers) := by
  refine ⟨rfl, fun e => rfl, ?_, ?_⟩
  · intro u
    show (((st.add addr).broadcast addr (Message.user_joined u))).lookupSender addr = _
    have hred : ((st.add addr).broadcast addr (Message.user_joined u)).peers
        = (addr, Sender.live []) :: broadcastList addr (Message.user_joined u)
            (st.peers.filter (fun p => p.1 ≠ addr)) :=
      broadcastList_cons_excluded addr (Message.user_joined u) (Sender.live [])
        (st.peers.filter (fun p => p.1 ≠ addr))
    unfold State.lookupSender
    rw [hred, List.find?_cons_of_pos _ (by simp)]
    rfl
  · intro u k q hkq hk
    show (k, Sender.live (q ++ [Message.user_joined u]))
      ∈ ((st.add addr).broadcast addr (Message.user_joined u)).peers
    exact broadcastList_mem_live _ hk
      (List.mem_cons_of_mem _ (List.mem_filter.mpr ⟨hkq, by simp [hk]⟩))

open Chat in
/-- Witness for C4 amended: with peer 2 registered, a successful handshake
of peer 1 with name "alice" broadcasts the Joined event to peer 2. -/
theorem handshake_abort_only_on_error_or_eof_witness :
    ((2, Sender.live []) ∈ ((⟨[(2, Sender.live [])]⟩ : State)).peers) ∧
    (2, Sender.live [Message.user_joined "alice"])
      ∈ (sessionStart ⟨[(2, Sender.live [])]⟩ 1 (some (Except.ok "alice"))).peers :=
  ⟨by decide,
    (handshake_abort_only_on_error_or_eof ⟨[(2, Sender.live [])]⟩ 1).2.2.2
      "alice" 2 [] (by decide) (by decide)⟩

open Chat in
/-- C5: a line longer than the codec's configured maximum length decodes to
`CodecError::tooLong`; in the read loop this error breaks the loop, so the
session immediately runs its closing sequence (the connection is dropped
and the peer deregistered), and every other live peer's delivery is
untouched except for receiving the single `Left` notice. -/
theorem too_long_line_drops_connection
    (maxLength : Nat) (line : String) (st : State) (addr : SocketAddr)
    (name : String) (rest : List (Except CodecError String))
    (h : line.length > maxLength) :
    decodeLine maxLength line = Except.error CodecError.tooLong ∧
    clientLoop st addr name (decodeLine maxLength line :: rest)
      = onUserLeave st addr name ∧
    (∀ k q, (k, Sender.live q) ∈ st.peers → k ≠ addr →
      (k, Sender.live (q ++ [Message.user_left name]))
        ∈ (clientLoop st addr name (decodeLine maxLength line :: rest)).peers) := by
  have hdec : decodeLine maxLength line = Except.error CodecError.tooLong := by
    unfold decodeLine
    rw [if_pos h]
  refine ⟨hdec, ?_, ?_⟩
  · rw [hdec]
    rfl
  · intro k q hkq hk
    rw [hdec]
    show (k, Sender.live (q ++ [Message.user_left name]))
      ∈ (onUserLeave st addr name).peers
    exact broadcastList_mem_live _ hk (List.mem_filter.mpr ⟨hkq, by simp [hk]⟩)

open Chat in
/-- Witness for C5: a 4-character line against maximum length 3. -/
theorem too_long_line_drops_connection_witness :
    ("abcd".length > 3) ∧
    clientLoop ⟨[(2, Sender.live [])]⟩ 1 "n" (decodeLine 3 "abcd" :: [])
      = onUserLeave ⟨[(2, Sender.live [])]⟩ 1 "n" :=
  ⟨by decide,
    (too_long_line_drops_connection 3 "abcd" ⟨[(2, Sender.live [])]⟩ 1 "n" []
      (by decide)).2.1⟩

open Chat in
/-- C6: whatever ends the read loop, the session runs the single closing
sequence `onUserLeave` exactly once (the loop is the chat phase followed by
one `onUserLeave`); the removal precedes the `Left` broadcast, so the
departed identifier is absent from the registry the broadcast iterates
(and from the final state), and each remaining live peer's queue is
extended by exactly the one `Left` event. -/
theorem leave_deregisters_then_broadcasts_once
    (st : State) (addr : SocketAddr) (name : String)
    (lines : List (Except CodecError String)) :
    clientLoop st addr name lines
      = onUserLeave (chatPhase st addr name lines) addr name ∧
    (∀ st2 : State, addr ∉ ((st2.removePeer addr).peers.map Prod.fst)) ∧
    addr ∉ ((clientLoop st addr name lines).peers.map Prod.fst) ∧
    (∀ st2 : State, ∀ k q, (k, Sender.live q) ∈ st2.peers → k ≠ addr →
      (k, Sender.live (q ++ [Message.user_left name]))
        ∈ (onUserLeave st2 addr name).peers) := by
  refine ⟨clientLoop_eq_leave_after_chatPhase addr name lines st, ?_, ?_, ?_⟩
  · intro st2
    exact not_mem_keys_filter st2.peers addr
  · rw [clientLoop_eq_leave_after_chatPhase addr name lines st]
    intro hmem
    have hmem2 : addr ∈ (broadcastList addr (Message.user_left name)
        ((chatPhase st addr name lines).peers.filter (fun p => p.1 ≠ addr))).map Prod.fst :=
      hmem
    exact not_mem_keys_filter _ addr (broadcastList_keys_subset hmem2)
  · intro st2 k q hkq hk
    exact broadcastList_mem_live _ hk (List.mem_filter.mpr ⟨hkq, by simp [hk]⟩)

open Chat in
/-- Witness for C6: peer 1 leaves a two-peer registry; peer 2 receives
exactly one `Left` event. -/
theorem leave_deregisters_then_broadcasts_once_witness :
    ((2, Sender.live []) ∈ ((⟨[(1, Sender.live []), (2, Sender.live [])]⟩ : State)).peers) ∧
    (2, Sender.live [Message.user_left "alice"])
      ∈ (onUserLeave ⟨[(1, Sender.live []), (2, Sender.live [])]⟩ 1 "alice").peers :=
  ⟨by decide,
    (leave_deregisters_then_broadcasts_once
      ⟨[(1, Sender.live []), (2, Sender.live [])]⟩ 1 "alice" []).2.2.2
      ⟨[(1, Sender.live []), (2, Sender.live [])]⟩ 2 [] (by decide) (by decide)⟩

open Chat in
/-- C7: after a broadcast, every non-excluded registry entry is one whose
enqueue succeeded (its channel is live) — an entry whose `send` failed
because the consumer is gone has been removed as a side effect; under
distinct identifiers, a closed non-excluded entry's key is gone from the
registry after the broadcast. -/
theorem broadcast_prunes_closed_channels
    (st : State) (excl : SocketAddr) (m : Message) :
    (∀ p ∈ (st.broadcast excl m).peers, p.1 ≠ excl → p.2 ≠ Sender.closed) ∧
    ((st.peers.map Prod.fst).Nodup → ∀ k, (k, Sender.closed) ∈ st.peers → k ≠ excl →
      k ∉ ((st.broadcast excl m).peers.map Prod.fst)) := by
  constructor
  · rintro ⟨k2, s⟩ hp hk hcl
    have hs : s = Sender.closed := hcl
    subst hs
    exact hk (broadcastList_closed_mem hp)
  · intro hnodup k hkc hke hmem
    obtain ⟨p, hp, hfst⟩ := List.mem_map.mp hmem
    obtain ⟨k2, s⟩ := p
    have hk2 : k2 = k := hfst
    subst hk2
    rcases broadcastList_mem_src hp with hl | ⟨q, h1, h2⟩
    · have hs : s = Sender.closed := (keys_unique hnodup hl hkc)
      exact hke (broadcastList_closed_mem (hs ▸ hp))
    · exact Sender.noConfusion (keys_unique hnodup hkc h2)

open Chat in
/-- Witness for C7: peer 2's channel is closed; after a broadcast excluding
peer 1, key 2 is gone from the registry. -/
theorem broadcast_prunes_closed_channels_witness :
    ((2, Sender.closed) ∈ ((⟨[(1, Sender.live []), (2, Sender.closed)]⟩ : State)).peers) ∧
    2 ∉ (((⟨[(1, Sender.live []), (2, Sender.closed)]⟩ : State).broadcast 1
        (Message.chat "a" "b")).peers.map Prod.fst) :=
  ⟨by decide,
    (broadcast_prunes_closed_channels ⟨[(1, Sender.live []), (2, Sender.closed)]⟩ 1
      (Message.chat "a" "b")).2 (by decide) 2 (by decide) (by decide)⟩

open Chat in
/-- C8: per-peer FIFO delivery — the writer task writes lines in queue
order: the i-th line it writes is the rendering of the i-th message
enqueued to its queue, so a message enqueued earlier is written before any
message enqueued later. -/
theorem writer_fifo_order (ok : Nat → Bool) (q : List Message) (i : Nat)
    (h : i < (writerRun ok 0 q).length) :
    (writerRun ok 0 q)[i]? = (q[i]?).map Message.render :=
  writerRun_get ok q 0 i h

open Chat in
/-- Witness for C8: on a queue holding M1 then M2 with all writes
succeeding, the second written line is the rendering of M2 (and the order
is the enqueue order). -/
theorem writer_fifo_order_witness :
    (1 < (writerRun (fun _ => true) 0
      [Message.chat "x" "m1", Message.chat "x" "m2"]).length) ∧
    (writerRun (fun _ => true) 0 [Message.chat "x" "m1", Message.chat "x" "m2"])[1]?
      = ([Message.chat "x" "m1", Message.chat "x" "m2"][1]?).map Message.render :=
  ⟨by decide,
    writer_fifo_order (fun _ => true) [Message.chat "x" "m1", Message.chat "x" "m2"] 1
      (by decide)⟩

open Chat in
/-- C9: registry `remove` is idempotent — removing an absent identifier
leaves the registry unchanged, removal never disturbs the mapping at any
other key, and removing twice equals removing once. -/
theorem registry_remove_idempotent (st : State) (addr : SocketAddr) :
    (addr ∉ st.peers.map Prod.fst → st.removePeer addr = st) ∧
    (∀ k, k ≠ addr → (st.removePeer addr).lookupSender k = st.lookupSender k) ∧
    (st.removePeer addr).removePeer addr = st.removePeer addr := by
  refine ⟨?_, ?_, ?_⟩
  · intro habs
    unfold State.removePeer
    have : st.peers.filter (fun p => p.1 ≠ addr) = st.peers :=
      List.filter_eq_self.mpr (by
        intro p hp
        simp only [decide_eq_true_eq]
        intro hc
        exact habs (hc ▸ List.mem_map_of_mem Prod.fst hp))
    rw [this]
  · intro k hk
    unfold State.lookupSender State.removePeer
    rw [find?_filter_ne st.peers addr k hk]
  · unfold State.removePeer
    rw [List.filter_filter]
    simp

open Chat in
/-- Witness for C9: removing the absent identifier 3 leaves a concrete
registry unchanged, and does not disturb key 1. -/
theorem registry_remove_idempotent_witness :
    (3 ∉ ((⟨[(1, Sender.live []), (2, Sender.closed)]⟩ : State)).peers.map Prod.fst) ∧
    (⟨[(1, Sender.live []), (2, Sender.closed)]⟩ : State).removePeer 3
      = ⟨[(1, Sender.live []), (2, Sender.closed)]⟩ :=
  ⟨by decide,
    (registry_remove_idempotent ⟨[(1, Sender.live []), (2, Sender.closed)]⟩ 3).1
      (by decide)⟩

/-- C10: the two implementations render a Chat event identically — both
produce exactly `"<sender>: <content>"`, so the chat-line wire format is
the same whichever implementation serves the client. -/
theorem chat_display_equivalence (s c : String) :
    Chat.Message.render (Chat.Message.chat s c)
      = MyChat.Message.render (MyChat.Message.chat s c) ∧
    Chat.Message.render (Chat.Message.chat s c) = s ++ ": " ++ c :=
  ⟨rfl, (String.append_assoc s ": " c).symm⟩
